import Mathlib

/-!
Verification of `meshpy_berkeley` (`meshpy/mesh_renderer.py`): a shallow embedding of
the viewpoint-discretization algebra (`ViewsphereDiscretizer`,
`PlanarWorksurfaceDiscretizer`) and of the `VirtualCamera` rendering pipeline
(`images`, `wrapped_images`, scene management, intrinsics recentering).

Python floats are modelled by `ℝ`; Python ints by `ℤ` (or `ℕ` for indices).
The external rasterization backend (`meshrender.render_mesh`), the image types
and the mesh normal computation are collaborators outside the source of this file;
they are modelled abstractly per the external-interface contracts of the spec, as
oracle parameters or per the documented operations (pinhole projection with
pixel rounding for `perception.CameraIntrinsics.project`).
-/

/-!  ## While-loop embedding

`mesh_renderer.py` iterates `v = min; while v <= max: ...; v += inc` (radius,
elevation, x, y) and `v = min; while v < max: ...; v += inc` (azimuth, roll).
The loops are embedded with explicit fuel; `loopFuel` is provably at least the
number of iterations whenever the loop terminates in the source (positive
increment).  In the program every increment is positive whenever the interval
is nonempty, so the fuel-exhausted branch is never reached there.
-/

/-- Fuel-indexed `while start <= stop` loop collecting the visited values. -/
noncomputable def whileLeAux (stop inc : ℝ) : ℕ → ℝ → List ℝ
  | 0, _ => []
  | fuel + 1, start =>
    if start ≤ stop then start :: whileLeAux stop inc fuel (start + inc) else []

/-- Fuel-indexed `while start < stop` loop collecting the visited values. -/
noncomputable def whileLtAux (stop inc : ℝ) : ℕ → ℝ → List ℝ
  | 0, _ => []
  | fuel + 1, start =>
    if start < stop then start :: whileLtAux stop inc fuel (start + inc) else []

/-- Sufficient fuel for the loops above when the increment is positive. -/
noncomputable def loopFuel (start stop inc : ℝ) : ℕ :=
  if 0 < inc then (⌊(stop - start) / inc⌋ + 2).toNat else 1

/-- Values visited by `v = start; while v <= stop: visit v; v += inc`. -/
noncomputable def whileLe (start stop inc : ℝ) : List ℝ :=
  whileLeAux stop inc (loopFuel start stop inc) start

/-- Values visited by `v = start; while v < stop: visit v; v += inc`. -/
noncomputable def whileLt (start stop inc : ℝ) : List ℝ :=
  whileLtAux stop inc (loopFuel start stop inc) start

/-- Nested-loop combinator (`for a in l: for b in f a: ...`). -/
def listBind {α β : Type*} : List α → (α → List β) → List β
  | [], _ => []
  | a :: l, f => f a ++ listBind l f

/-!  ## Grid increments

Both discretizers compute the per-dimension step with the same three-way case
split for the closed dimensions (radius, elevation, x, y) and a plain division
for the half-open periodic dimensions (azimuth, roll); mesh_renderer.py lines
116-130 and 268-297. -/

/-- Step for a closed dimension: `1` when `max == min`, `max - min + 1` when
`num == 1`, else `(max - min) / (num - 1)`. -/
noncomputable def closedInc (mn mx : ℝ) (num : ℤ) : ℝ :=
  if mx = mn then 1
  else if num = 1 then mx - mn + 1
  else (mx - mn) / ((num : ℝ) - 1)

/-- Step for a periodic (half-open) dimension: `(max - min) / num`. -/
noncomputable def openInc (mn mx : ℝ) (num : ℤ) : ℝ :=
  (mx - mn) / (num : ℝ)

/-!  ## ViewsphereDiscretizer -/

/-- Parameter set of a `ViewsphereDiscretizer` (spec: SphericalGridSpec). -/
structure VsParams where
  min_radius : ℝ
  max_radius : ℝ
  num_radii : ℤ
  min_elev : ℝ
  max_elev : ℝ
  num_elev : ℤ
  min_az : ℝ
  max_az : ℝ
  num_az : ℤ
  min_roll : ℝ
  max_roll : ℝ
  num_roll : ℤ

/-- Embedding of `ViewsphereDiscretizer.__init__` (lines 92-105): raises `ValueError` when
`num_radii < 1 or num_az < 1 or num_elev < 1`, else stores the fields. -/
def ViewsphereDiscretizer.init (min_radius max_radius : ℝ) (num_radii : ℤ)
    (min_elev max_elev : ℝ) (num_elev : ℤ) (min_az max_az : ℝ) (num_az : ℤ)
    (min_roll max_roll : ℝ) (num_roll : ℤ) : Except String VsParams :=
  if num_radii < 1 ∨ num_az < 1 ∨ num_elev < 1 then
    Except.error ("Discretization must be at least one in each dimension")
  else
    Except.ok ⟨min_radius, max_radius, num_radii, min_elev, max_elev, num_elev,
      min_az, max_az, num_az, min_roll, max_roll, num_roll⟩

/-- Radius values visited by the outermost loop (lines 134-135, 174). -/
noncomputable def radiusVals (p : VsParams) : List ℝ :=
  whileLe p.min_radius p.max_radius (closedInc p.min_radius p.max_radius p.num_radii)

/-- Elevation values visited (lines 136-137, 173). -/
noncomputable def elevVals (p : VsParams) : List ℝ :=
  whileLe p.min_elev p.max_elev (closedInc p.min_elev p.max_elev p.num_elev)

/-- Azimuth values visited; the loop is strict (`while az < max_az`, line 139). -/
noncomputable def azVals (p : VsParams) : List ℝ :=
  whileLt p.min_az p.max_az (openInc p.min_az p.max_az p.num_az)

/-- Roll values visited; the loop is strict (`while roll < max_roll`, line 141). -/
noncomputable def rollVals (p : VsParams) : List ℝ :=
  whileLt p.min_roll p.max_roll (openInc p.min_roll p.max_roll p.num_roll)

/-- One grid point of the viewsphere loops. -/
structure VsPoint where
  radius : ℝ
  elev : ℝ
  az : ℝ
  roll : ℝ

/-- The spherical-coordinate grid visited by
`ViewsphereDiscretizer.object_to_camera_poses`: radius outer, then elevation,
azimuth, roll (lines 134-141). -/
noncomputable def vsGrid (p : VsParams) : List VsPoint :=
  listBind (radiusVals p) fun radius =>
    listBind (elevVals p) fun elev =>
      listBind (azVals p) fun az =>
        (rollVals p).map fun roll => ⟨radius, elev, az, roll⟩

/-!  ## PlanarWorksurfaceDiscretizer grid -/

/-- Parameter set of a `PlanarWorksurfaceDiscretizer` (spec: PlanarGridSpec). -/
structure PwParams where
  min_radius : ℝ
  max_radius : ℝ
  num_radii : ℤ
  min_elev : ℝ
  max_elev : ℝ
  num_elev : ℤ
  min_az : ℝ
  max_az : ℝ
  num_az : ℤ
  min_roll : ℝ
  max_roll : ℝ
  num_roll : ℤ
  min_x : ℝ
  max_x : ℝ
  num_x : ℤ
  min_y : ℝ
  max_y : ℝ
  num_y : ℤ

/-- Embedding of `PlanarWorksurfaceDiscretizer.__init__` (lines 232-251): the validation is
identical to the viewsphere one (`num_radii < 1 or num_az < 1 or num_elev < 1`). -/
def PlanarWorksurfaceDiscretizer.init (min_radius max_radius : ℝ) (num_radii : ℤ)
    (min_elev max_elev : ℝ) (num_elev : ℤ) (min_az max_az : ℝ) (num_az : ℤ)
    (min_roll max_roll : ℝ) (num_roll : ℤ) (min_x max_x : ℝ) (num_x : ℤ)
    (min_y max_y : ℝ) (num_y : ℤ) : Except String PwParams :=
  if num_radii < 1 ∨ num_az < 1 ∨ num_elev < 1 then
    Except.error ("Discretization must be at least one in each dimension")
  else
    Except.ok ⟨min_radius, max_radius, num_radii, min_elev, max_elev, num_elev,
      min_az, max_az, num_az, min_roll, max_roll, num_roll,
      min_x, max_x, num_x, min_y, max_y, num_y⟩

/-- Radius values of the planar discretizer (lines 269-274, 303-304). -/
noncomputable def pwRadiusVals (p : PwParams) : List ℝ :=
  whileLe p.min_radius p.max_radius (closedInc p.min_radius p.max_radius p.num_radii)

/-- Elevation values of the planar discretizer (lines 276-281, 305-306). -/
noncomputable def pwElevVals (p : PwParams) : List ℝ :=
  whileLe p.min_elev p.max_elev (closedInc p.min_elev p.max_elev p.num_elev)

/-- Azimuth values of the planar discretizer (line 275, 307-308; strict test). -/
noncomputable def pwAzVals (p : PwParams) : List ℝ :=
  whileLt p.min_az p.max_az (openInc p.min_az p.max_az p.num_az)

/-- Roll values of the planar discretizer (line 282, 309-310; strict test). -/
noncomputable def pwRollVals (p : PwParams) : List ℝ :=
  whileLt p.min_roll p.max_roll (openInc p.min_roll p.max_roll p.num_roll)

/-- X values of the planar discretizer (lines 284-289, 311-312; closed test). -/
noncomputable def pwXVals (p : PwParams) : List ℝ :=
  whileLe p.min_x p.max_x (closedInc p.min_x p.max_x p.num_x)

/-- Y values of the planar discretizer (lines 292-297, 313-314; closed test). -/
noncomputable def pwYVals (p : PwParams) : List ℝ :=
  whileLe p.min_y p.max_y (closedInc p.min_y p.max_y p.num_y)

/-- One grid point of the planar-worksurface loops. -/
structure PwPoint where
  radius : ℝ
  elev : ℝ
  az : ℝ
  roll : ℝ
  x : ℝ
  y : ℝ

/-- The grid visited by `PlanarWorksurfaceDiscretizer.object_to_camera_poses`:
radius, elevation, azimuth, roll, x, y from outermost to innermost
(lines 303-314). -/
noncomputable def pwGrid (p : PwParams) : List PwPoint :=
  listBind (pwRadiusVals p) fun radius =>
    listBind (pwElevVals p) fun elev =>
      listBind (pwAzVals p) fun az =>
        listBind (pwRollVals p) fun roll =>
          listBind (pwXVals p) fun x =>
            (pwYVals p).map fun y => ⟨radius, elev, az, roll, x, y⟩

/-!  ## 3-vector / 3x3-matrix geometry (numpy operations used by the source) -/

/-- A 3-vector of reals (a numpy array of length 3). -/
structure V3 where
  x : ℝ
  y : ℝ
  z : ℝ

/-- Componentwise addition. -/
def V3.add (u v : V3) : V3 := ⟨u.x + v.x, u.y + v.y, u.z + v.z⟩

/-- Componentwise negation. -/
def V3.neg (v : V3) : V3 := ⟨-v.x, -v.y, -v.z⟩

/-- Scalar multiplication. -/
def V3.smul (a : ℝ) (v : V3) : V3 := ⟨a * v.x, a * v.y, a * v.z⟩

/-- Division of a vector by a scalar (numpy `v / a`). -/
noncomputable def V3.divs (v : V3) (a : ℝ) : V3 := ⟨v.x / a, v.y / a, v.z / a⟩

/-- Dot product. -/
def V3.dot (u v : V3) : ℝ := u.x * v.x + u.y * v.y + u.z * v.z

/-- Euclidean norm (`np.linalg.norm`). -/
noncomputable def V3.norm (v : V3) : ℝ := Real.sqrt (V3.dot v v)

/-- Cross product (`np.cross`). -/
def V3.cross (u v : V3) : V3 :=
  ⟨u.y * v.z - u.z * v.y, u.z * v.x - u.x * v.z, u.x * v.y - u.y * v.x⟩

/-- A 3x3 real matrix stored by columns (`np.c_[c0, c1, c2]`). -/
structure M3 where
  c0 : V3
  c1 : V3
  c2 : V3

/-- Matrix-vector product. -/
def M3.apply (m : M3) (v : V3) : V3 :=
  V3.add (V3.smul v.x m.c0) (V3.add (V3.smul v.y m.c1) (V3.smul v.z m.c2))

/-- Matrix-matrix product. -/
def M3.mul (a b : M3) : M3 := ⟨a.apply b.c0, a.apply b.c1, a.apply b.c2⟩

/-- Matrix transpose. -/
def M3.transpose (m : M3) : M3 :=
  ⟨⟨m.c0.x, m.c1.x, m.c2.x⟩, ⟨m.c0.y, m.c1.y, m.c2.y⟩, ⟨m.c0.z, m.c1.z, m.c2.z⟩⟩

/-- The 3x3 identity matrix. -/
def M3.id : M3 := ⟨⟨1, 0, 0⟩, ⟨0, 1, 0⟩, ⟨0, 0, 1⟩⟩

/-- Embedding of `autolab_core.RigidTransform`: rotation `R` (columns), translation `t`, and
the two frame labels.  External collaborator, modelled per its documented
operations (compose, invert, apply to a point, rename frames). -/
structure RigidTransform where
  R : M3
  t : V3
  from_frame : String
  to_frame : String

/-- Embedding of `RigidTransform.inverse`: `(R^T, -R^T t)` with the frames swapped. -/
noncomputable def RigidTransform.inverse (T : RigidTransform) : RigidTransform :=
  ⟨T.R.transpose, (T.R.transpose.apply T.t).neg, T.to_frame, T.from_frame⟩

/-- Apply a rigid transform to a point: `R p + t`. -/
noncomputable def RigidTransform.apply (T : RigidTransform) (p : V3) : V3 :=
  V3.add (T.R.apply p) T.t

/-- Composition `T1 * T2` (autolab `dot`): `(R1 R2, R1 t2 + t1)`, frames
`T2.from -> T1.to`. -/
noncomputable def RigidTransform.dot (T1 T2 : RigidTransform) : RigidTransform :=
  ⟨T1.R.mul T2.R, V3.add (T1.R.apply T2.t) T1.t, T2.from_frame, T1.to_frame⟩

/-- Embedding of `RigidTransform.as_frames`: same data, renamed frames (a fresh object in
the source, so the original is not mutated). -/
def RigidTransform.as_frames (T : RigidTransform) (f t : String) : RigidTransform :=
  { T with from_frame := f, to_frame := t }

/-- Embedding of `autolab_core.utils.sph2cart(r, az, elev)`: elevation measured from the
z-axis, azimuth from the x-axis (external collaborator; spec section 4.1
"spherical-to-Cartesian(r, a, e)"). -/
noncomputable def sph2cart (r az elev : ℝ) : V3 :=
  ⟨r * Real.sin elev * Real.cos az, r * Real.sin elev * Real.sin az, r * Real.cos elev⟩

/-- Canonical camera x and y axes for viewing axis `z` with the orientation
flip correction (lines 148-157 and 324-334): `x0 = (z_y, -z_x, 0)` with
fallback `(1,0,0)` when zero, normalized; `y = normalize(z x x)`; if `y_z > 0`
flip `x` and recompute `y`. -/
noncomputable def canonicalAxes (z : V3) : V3 × V3 :=
  let x0 : V3 := ⟨z.y, -z.x, 0⟩
  let x1 : V3 := if x0.norm = 0 then ⟨1, 0, 0⟩ else x0
  let x_par : V3 := x1.divs x1.norm
  let y_par : V3 := (V3.cross z x_par).divs (V3.cross z x_par).norm
  if 0 < y_par.z then
    let x_flip : V3 := x_par.neg
    (x_flip, (V3.cross z x_flip).divs (V3.cross z x_flip).norm)
  else
    (x_par, y_par)

/-- Roll rotation about the camera z-axis (lines 161-163), stored by columns. -/
noncomputable def rotZ (roll : ℝ) : M3 :=
  ⟨⟨Real.cos roll, Real.sin roll, 0⟩, ⟨-Real.sin roll, Real.cos roll, 0⟩, ⟨0, 0, 1⟩⟩

/-- Camera viewing axis of the viewsphere discretizer at a grid point
(line 144-145): `-center / |center|` with `center = sph2cart(r, az, elev)`. -/
noncomputable def vsCameraZ (g : VsPoint) : V3 :=
  (sph2cart g.radius g.az g.elev).neg.divs (sph2cart g.radius g.az g.elev).norm

/-- Final (post-flip) canonical camera y-axis at a viewsphere grid point. -/
noncomputable def vsYPar (g : VsPoint) : V3 := (canonicalAxes (vsCameraZ g)).2

/-- Embedding of `T_obj_camera` built at a viewsphere grid point (lines 144-169):
`R = [x_par y_par z] . Rot_z(roll)`, translation = camera center, frames
`camera -> obj`; the generated pose is its inverse. -/
noncomputable def vsPoseAt (g : VsPoint) : RigidTransform :=
  let center := sph2cart g.radius g.az g.elev
  let z := vsCameraZ g
  let ax := canonicalAxes z
  let Rm := (M3.mk ax.1 ax.2 z).mul (rotZ g.roll)
  (RigidTransform.mk Rm center ("camera") ("obj")).inverse

/-- Embedding of `ViewsphereDiscretizer.object_to_camera_poses` (lines 107-175). -/
noncomputable def ViewsphereDiscretizer.object_to_camera_poses (p : VsParams) :
    List RigidTransform :=
  (vsGrid p).map vsPoseAt

/-- Camera viewing axis of the planar discretizer at a grid point (lines
320-321): `z = -center0; z = z / |z|` with `center0` the undisplaced sphere
position (independent of the planar offset). -/
noncomputable def pwCameraZ (g : PwPoint) : V3 :=
  (sph2cart g.radius g.az g.elev).neg.divs (sph2cart g.radius g.az g.elev).neg.norm

/-- Final (post-flip) canonical camera y-axis at a planar grid point. -/
noncomputable def pwYPar (g : PwPoint) : V3 := (canonicalAxes (pwCameraZ g)).2

/-- Embedding of `T_obj_camera` at a planar grid point (lines 317-347): same construction
as the viewsphere one but the translation is the displaced center
`center0 + (x, y, 0)`. -/
noncomputable def pwPoseObjCamera (g : PwPoint) : RigidTransform :=
  let delta : V3 := ⟨g.x, g.y, 0⟩
  let center := V3.add (sph2cart g.radius g.az g.elev) delta
  let z := pwCameraZ g
  let ax := canonicalAxes z
  let Rm := (M3.mk ax.1 ax.2 z).mul (rotZ g.roll)
  RigidTransform.mk Rm center ("camera") ("obj")

/-- Pose A at a planar grid point: `T_obj_camera.inverse()` (line 349). -/
noncomputable def pwPoseA (g : PwPoint) : RigidTransform := (pwPoseObjCamera g).inverse

/-- Pose B (normalized) at a planar grid point: same rotation, the planar
offset subtracted back out of the translation, inverted (lines 352-356). -/
noncomputable def pwPoseB (g : PwPoint) : RigidTransform :=
  let delta : V3 := ⟨g.x, g.y, 0⟩
  let T := pwPoseObjCamera g
  (RigidTransform.mk T.R (V3.add T.t delta.neg) ("camera") ("obj")).inverse

/-- The object origin expressed in the camera frame at a planar grid point:
`T_obj_camera.inverse() * Point(0, frame=obj)` (lines 359-360). -/
noncomputable def originInCamera (g : PwPoint) : V3 := (pwPoseA g).apply ⟨0, 0, 0⟩

/-!  ## Camera intrinsics (perception.CameraIntrinsics, external) -/

/-- Pinhole intrinsics: focal lengths, skew, principal point, image size.
External collaborator; the projection below follows its documented operation
(homogeneous projection by `K`, divide by depth, round to the nearest pixel;
`np.round` resolves ties to even, our `round` rounds half up - the claims
below depend only on nearest-rounding, `|u - round u| <= 1/2`). -/
structure CameraIntrinsics where
  fx : ℝ
  fy : ℝ
  skew : ℝ
  cx : ℝ
  cy : ℝ
  height : ℕ
  width : ℕ

/-- Unrounded image-plane coordinates of a camera-frame point. -/
noncomputable def CameraIntrinsics.projectRaw (intr : CameraIntrinsics) (p : V3) : ℝ × ℝ :=
  ((intr.fx * p.x + intr.skew * p.y + intr.cx * p.z) / p.z,
   (intr.fy * p.y + intr.cy * p.z) / p.z)

/-- Embedding of `CameraIntrinsics.project` with the default `round_px=True`. -/
noncomputable def CameraIntrinsics.project (intr : CameraIntrinsics) (p : V3) : ℤ × ℤ :=
  (round (intr.projectRaw p).1, round (intr.projectRaw p).2)

/-- Recentered (shifted) intrinsics at a planar grid point (lines 358-365):
deep-copy the intrinsics, then `cx := 2*cx - u`, `cy := 2*cy - v` where
`(u, v)` is the projection of the object origin through pose A under the
original intrinsics. -/
noncomputable def shiftedIntrAt (intr : CameraIntrinsics) (g : PwPoint) : CameraIntrinsics :=
  { intr with
    cx := 2 * intr.cx - ((intr.project (originInCamera g)).1 : ℝ),
    cy := 2 * intr.cy - ((intr.project (originInCamera g)).2 : ℝ) }

/-- Embedding of `PlanarWorksurfaceDiscretizer.object_to_camera_poses(camera_intr)`
(lines 253-373): the three parallel output sequences (poses A, normalized
poses B, recentered intrinsics), one entry per grid point in loop order. -/
noncomputable def PlanarWorksurfaceDiscretizer.object_to_camera_poses
    (p : PwParams) (camera_intr : CameraIntrinsics) :
    List RigidTransform × List RigidTransform × List CameraIntrinsics :=
  ((pwGrid p).map pwPoseA, (pwGrid p).map pwPoseB,
   (pwGrid p).map (shiftedIntrAt camera_intr))

/-!  ## Meshes and scene objects -/

/-- Embedding of `Mesh3D` as consumed by `VirtualCamera.images`: vertices, integer triangle
indices, optional per-vertex normals. -/
structure Mesh where
  vertices : List V3
  triangles : List (ℕ × ℕ × ℕ)
  normals : Option (List V3)

/-- Modelled from the spec: `Mesh3D.compute_vertex_normals` (the mesh class is
part of this repository but not under src/) computes per-vertex normals from
the mesh and stores them on the mesh object; the computation itself is an
oracle parameter `cvn`. -/
def Mesh.compute_vertex_normals (cvn : Mesh → List V3) (m : Mesh) : Mesh :=
  { m with normals := some (cvn m) }

/-- Opaque material-properties parameter vector. -/
structure MaterialProperties where
  arr : List ℝ

/-- Embedding of `SceneObject` (lines 375-381): mesh, pose of the mesh in the world frame,
material properties. -/
structure SceneObject where
  mesh : Mesh
  T_mesh_world : RigidTransform
  mat_props : MaterialProperties

/-- Embedding of `VirtualCamera` state: its intrinsics and the named scene mapping.  The
mapping is an association list; a `none` value is the absent marker left
behind by `remove_from_scene`. -/
structure VirtualCamera where
  camera_intr : CameraIntrinsics
  scene : List (String × Option SceneObject)

/-- Set a key in the scene dict (Python `self._scene[name] = v`): overwrite if
the key is present, else append it. -/
def dictSet (scene : List (String × Option SceneObject)) (name : String)
    (v : Option SceneObject) : List (String × Option SceneObject) :=
  if scene.any (fun e => e.1 == name) then
    scene.map (fun e => if e.1 == name then (e.1, v) else e)
  else
    scene ++ [(name, v)]

/-- Embedding of `VirtualCamera.add_to_scene` (lines 406-416). -/
def VirtualCamera.add_to_scene (vc : VirtualCamera) (name : String)
    (scene_object : SceneObject) : VirtualCamera :=
  { vc with scene := dictSet vc.scene name (some scene_object) }

/-- Embedding of `VirtualCamera.remove_from_scene` (lines 418-426): sets the slot to the
absent marker (`self._scene[name] = None`), keeping the key. -/
def VirtualCamera.remove_from_scene (vc : VirtualCamera) (name : String) : VirtualCamera :=
  { vc with scene := dictSet vc.scene name none }

/-- The scene-object pose computation in `wrapped_images` scene modes (lines
609-611, 635-637, 662-664): `scene_obj.T_mesh_world` is accessed on each
entry value with no absent-marker check, so a `none` entry raises
`AttributeError` in the source; modelled as `Except.error`. -/
noncomputable def sceneObjectPoses (world_to_camera_poses : List RigidTransform)
    (entry : Option SceneObject) : Except String (List RigidTransform) :=
  match entry with
  | none => Except.error ("AttributeError: NoneType object has no attribute T_mesh_world")
  | some scene_obj =>
      Except.ok (world_to_camera_poses.map fun w => w.dot scene_obj.T_mesh_world)

/-- Iteration over the scene entries in the `_SCENE` render modes (lines
607-613): build the scene-object-to-camera pose list for every entry; the
first raising entry aborts the whole call (exception propagation). -/
noncomputable def renderSceneEntries (scene : List (String × Option SceneObject))
    (world_to_camera_poses : List RigidTransform) :
    Except String (List (String × List RigidTransform)) :=
  match scene with
  | [] => Except.ok []
  | e :: rest =>
    match sceneObjectPoses world_to_camera_poses e.2 with
    | Except.error msg => Except.error msg
    | Except.ok ps =>
      match renderSceneEntries rest world_to_camera_poses with
      | Except.error msg => Except.error msg
      | Except.ok tail => Except.ok ((e.1, ps) :: tail)

/-!  ## COLOR_SCENE compositing (lines 615-620)

A color image is a pixel grid, modelled as a total pixel function
`(row, col) -> (r, g, b)`; `zero_pixels` of the image type marks the
coordinates whose pixel is zero-valued. -/

/-- An RGB pixel. -/
abbrev Pix := ℕ × ℕ × ℕ

/-- A color image as a pixel function. -/
abbrev Img := ℕ × ℕ → Pix

/-- One compositing assignment (lines 619-620): write the scene-object
pixels at exactly the coordinates where the current primary image is
zero-valued (`zero_px` is recomputed from the current image). -/
def compositeStep (primary scene_im : Img) : Img :=
  fun px => if primary px = (0, 0, 0) then scene_im px else primary px

/-- Fold of `compositeStep` over the images of the scene objects for one output
index (the inner `for j, name` loop). -/
def compositeScene (primary : Img) (scene_ims : List Img) : Img :=
  scene_ims.foldl compositeStep primary

/-- The `COLOR_SCENE` compositing loops (lines 617-620): for each output index
`i`, fold the `i`-th rendered image of every scene object into the primary image. -/
def colorSceneComposite (images : List Img) (scene_ims : List (List Img)) : List Img :=
  (List.range images.length).map fun i =>
    compositeScene (images.getD i (fun _ => (0, 0, 0)))
      (scene_ims.map fun l => l.getD i (fun _ => (0, 0, 0)))

/-!  ## VirtualCamera.images and wrapped_images -/

/-- Embedding of `VirtualCamera.images` (lines 428-504), restricted to its observable
state effects and call structure: if the mesh has no normals they are computed
and stored on the mesh object of the caller (line 460-461); then the external
rasterizer is invoked once per pose on the (possibly updated) mesh.  The
rasterizer is the oracle `render_mesh`; the final state of the mesh of the caller
is returned alongside the buffers. -/
noncomputable def VirtualCamera.images {α β : Type} (vc : VirtualCamera)
    (cvn : Mesh → List V3) (render_mesh : CameraIntrinsics → RigidTransform → Mesh → α × β)
    (mesh : Mesh) (object_to_camera_poses : List RigidTransform) :
    (List α × List β) × Mesh :=
  let mesh1 := if mesh.normals.isNone then Mesh.compute_vertex_normals cvn mesh else mesh
  let outs := object_to_camera_poses.map fun T => render_mesh vc.camera_intr T mesh1
  ((outs.map Prod.fst, outs.map Prod.snd), mesh1)

/-- Stable pose (`StablePose`): rotation `r` and a reference point `x0`. -/
structure StablePose where
  r : M3
  x0 : V3

/-- The pose preprocessing of `VirtualCamera.wrapped_images` (lines 562-574),
including its aliasing effect.  With a stable pose, the source takes a
*shallow* copy of the input list (`copy.copy`), sets `from_frame = stp` on
each shared pose object - mutating the objects of the caller - and composes with
`T_obj_stp` (translation `(0, 0, -(R_sp x0)_z)`).  Returns
`(world_to_camera_poses, poses used for rendering, final states of the
input pose objects of the caller)`. -/
noncomputable def wrappedImagesPosePrep (stable_pose : Option StablePose)
    (object_to_camera_poses : List RigidTransform) :
    List RigidTransform × List RigidTransform × List RigidTransform :=
  let world_to_camera_poses :=
    object_to_camera_poses.map fun T => T.as_frames ("obj") ("camera")
  match stable_pose with
  | none =>
      (world_to_camera_poses, object_to_camera_poses, object_to_camera_poses)
  | some sp =>
      let T_obj_stp : RigidTransform :=
        ⟨sp.r, ⟨0, 0, -(sp.r.apply sp.x0).z⟩, "obj", "stp"⟩
      let stp_to_camera_poses :=
        object_to_camera_poses.map fun T => { T with from_frame := "stp" }
      (world_to_camera_poses,
       stp_to_camera_poses.map fun T => T.dot T_obj_stp,
       stp_to_camera_poses)

/-- Embedding of `VirtualCamera.wrapped_images_planar_worksurface` (lines 718-761): save
the current intrinsics (deep copy), generate the planar-worksurface poses and
recentered intrinsics, then for each pair set the intrinsics of the camera to the
recentered ones and render one pose (`wrapped_images` is the oracle `render`,
which reads the current camera state); finally restore the saved
intrinsics.  Returns the collected renders and the final camera state. -/
noncomputable def VirtualCamera.wrapped_images_planar_worksurface {α : Type}
    (vc : VirtualCamera) (ws_disc : PwParams)
    (render : VirtualCamera → RigidTransform → List α) : List α × VirtualCamera :=
  let old_camera_intr := vc.camera_intr
  let triple := PlanarWorksurfaceDiscretizer.object_to_camera_poses ws_disc old_camera_intr
  let final := (triple.1.zip triple.2.2).foldl
    (fun (st : List α × VirtualCamera) pr =>
      let vc1 := { st.2 with camera_intr := pr.2 }
      (st.1 ++ render vc1 pr.1, vc1))
    ([], vc)
  (final.1, { final.2 with camera_intr := old_camera_intr })

/-!  ## Concrete sample values used by witnesses and counterexamples -/

/-- Sample intrinsics. -/
def intrSample : CameraIntrinsics := ⟨1, 1, 0, 5, 5, 10, 10⟩

/-- Viewsphere parameters with one count in every dimension and nonempty
intervals (azimuth and roll strictly so). -/
def vsSingleton : VsParams := ⟨1, 1, 1, 0, 0, 1, 0, 1, 1, 0, 1, 1⟩

/-- Viewsphere parameters with `num = 1` everywhere but `min_az = max_az`:
the azimuth loop body never runs. -/
def vsDegenerateAz : VsParams := ⟨1, 1, 1, 0, 0, 1, 0, 0, 1, 0, 1, 1⟩

/-- Viewsphere parameters for the azimuth-periodicity witness:
`min_az = 0, max_az = 2 pi, num_az = 4`, radius 1..2 over 3 values,
elevation 0..1 over 3 values. -/
noncomputable def vsAzWitness : VsParams := ⟨1, 2, 3, 0, 1, 3, 0, 2 * Real.pi, 4, 0, 1, 1⟩

/-- Planar-worksurface parameters with one count in every dimension and
singleton closed intervals; the single grid point is `(1, 0, 0, 0, 0, 0)`. -/
def pwSingleton : PwParams := ⟨1, 1, 1, 0, 0, 1, 0, 1, 1, 0, 1, 1, 0, 0, 1, 0, 0, 1⟩

/-- A sample rigid transform. -/
def rtSample : RigidTransform := ⟨M3.id, ⟨0, 0, 1⟩, "world", "camera"⟩

/-- A sample mesh without stored normals. -/
def meshNoNormals : Mesh := ⟨[⟨0, 0, 0⟩, ⟨1, 0, 0⟩, ⟨0, 1, 0⟩], [(0, 1, 2)], none⟩

/-- A sample scene object. -/
def sceneObjSample : SceneObject := ⟨meshNoNormals, rtSample, ⟨[]⟩⟩

/-- A virtual camera with an empty scene. -/
def vcSample : VirtualCamera := ⟨intrSample, []⟩

/-!  # Theorems -/

theorem listBind_nil {α β : Type*} (f : α → List β) : listBind [] f = [] := rfl

theorem listBind_cons {α β : Type*} (a : α) (l : List α) (f : α → List β) :
    listBind (a :: l) f = f a ++ listBind l f := rfl

theorem listBind_empty {α β : Type*} (l : List α) :
    listBind l (fun _ => ([] : List β)) = [] := by
  induction l with
  | nil => rfl
  | cons a l ih => simp [listBind_cons, ih]

theorem mem_listBind {α β : Type*} {l : List α} {f : α → List β} {b : β} :
    b ∈ listBind l f ↔ ∃ a ∈ l, b ∈ f a := by
  induction l with
  | nil => simp [listBind_nil]
  | cons a l ih => simp [listBind_cons, ih, List.mem_append]

theorem range_map_affine_succ (a d : ℝ) (n : ℕ) :
    (List.range (n + 1)).map (fun (k : ℕ) => a + (k : ℝ) * d)
      = a :: (List.range n).map (fun (k : ℕ) => a + d + (k : ℝ) * d) := by
  rw [List.range_succ_eq_map, List.map_cons, List.map_map]
  refine congrArg₂ List.cons (by norm_num) ?_
  refine List.map_congr_left fun k _ => ?_
  simp only [Function.comp_apply]
  push_cast
  ring

theorem whileLeAux_eq_map (stop inc : ℝ) (n : ℕ) :
    ∀ (fuel : ℕ) (start : ℝ), n ≤ fuel →
      (∀ k : ℕ, k < n → start + (k : ℝ) * inc ≤ stop) →
      ¬(start + (n : ℝ) * inc ≤ stop) →
      whileLeAux stop inc fuel start = (List.range n).map (fun (k : ℕ) => start + (k : ℝ) * inc) := by
  induction n with
  | zero =>
    intro fuel start _ _ hn
    have h0 : ¬ start ≤ stop := by simpa using hn
    cases fuel with
    | zero => simp [whileLeAux]
    | succ f => simp [whileLeAux, h0]
  | succ n ih =>
    intro fuel start hfuel hk hn
    obtain ⟨f, rfl⟩ : ∃ f, fuel = f + 1 := ⟨fuel - 1, by omega⟩
    have h0 : start ≤ stop := by simpa using hk 0 (Nat.succ_pos n)
    have hrec := ih f (start + inc) (by omega)
      (fun k hklt => by
        have h1 := hk (k + 1) (by omega)
        push_cast at h1 ⊢
        linarith)
      (by
        intro hc
        apply hn
        push_cast at hc ⊢
        linarith)
    simp only [whileLeAux, if_pos h0, hrec]
    rw [range_map_affine_succ]

theorem whileLtAux_eq_map (stop inc : ℝ) (n : ℕ) :
    ∀ (fuel : ℕ) (start : ℝ), n ≤ fuel →
      (∀ k : ℕ, k < n → start + (k : ℝ) * inc < stop) →
      ¬(start + (n : ℝ) * inc < stop) →
      whileLtAux stop inc fuel start = (List.range n).map (fun (k : ℕ) => start + (k : ℝ) * inc) := by
  induction n with
  | zero =>
    intro fuel start _ _ hn
    have h0 : ¬ start < stop := by simpa using hn
    cases fuel with
    | zero => simp [whileLtAux]
    | succ f => simp [whileLtAux, h0]
  | succ n ih =>
    intro fuel start hfuel hk hn
    obtain ⟨f, rfl⟩ : ∃ f, fuel = f + 1 := ⟨fuel - 1, by omega⟩
    have h0 : start < stop := by simpa using hk 0 (Nat.succ_pos n)
    have hrec := ih f (start + inc) (by omega)
      (fun k hklt => by
        have h1 := hk (k + 1) (by omega)
        push_cast at h1 ⊢
        linarith)
      (by
        intro hc
        apply hn
        push_cast at hc ⊢
        linarith)
    simp only [whileLtAux, if_pos h0, hrec]
    rw [range_map_affine_succ]

theorem whileLe_eq_map (start stop inc : ℝ) (n : ℕ)
    (hk : ∀ k : ℕ, k < n → start + (k : ℝ) * inc ≤ stop)
    (hn : ¬(start + (n : ℝ) * inc ≤ stop)) :
    whileLe start stop inc = (List.range n).map (fun (k : ℕ) => start + (k : ℝ) * inc) := by
  refine whileLeAux_eq_map stop inc n _ start ?_ hk hn
  cases n with
  | zero => exact Nat.zero_le _
  | succ m =>
    have h0 : start ≤ stop := by simpa using hk 0 (Nat.succ_pos m)
    have hm : start + (m : ℝ) * inc ≤ stop := hk m (by omega)
    have hpos : 0 < inc := by
      by_contra hle
      push_neg at hle
      apply hn
      push_cast
      nlinarith
    rw [loopFuel, if_pos hpos]
    have hmle : (m : ℝ) ≤ (stop - start) / inc := by
      rw [le_div_iff₀ hpos]
      linarith
    have hfl : (m : ℤ) ≤ ⌊(stop - start) / inc⌋ := Int.le_floor.mpr (by push_cast; exact hmle)
    omega

theorem whileLt_eq_map (start stop inc : ℝ) (n : ℕ)
    (hk : ∀ k : ℕ, k < n → start + (k : ℝ) * inc < stop)
    (hn : ¬(start + (n : ℝ) * inc < stop)) :
    whileLt start stop inc = (List.range n).map (fun (k : ℕ) => start + (k : ℝ) * inc) := by
  refine whileLtAux_eq_map stop inc n _ start ?_ hk hn
  cases n with
  | zero => exact Nat.zero_le _
  | succ m =>
    have h0 : start < stop := by simpa using hk 0 (Nat.succ_pos m)
    have hm : start + (m : ℝ) * inc < stop := hk m (by omega)
    have hpos : 0 < inc := by
      by_contra hle
      push_neg at hle
      apply hn
      push_cast
      nlinarith
    rw [loopFuel, if_pos hpos]
    have hmle : (m : ℝ) ≤ (stop - start) / inc := by
      rw [le_div_iff₀ hpos]
      linarith
    have hfl : (m : ℤ) ≤ ⌊(stop - start) / inc⌋ := Int.le_floor.mpr (by push_cast; exact hmle)
    omega

theorem whileLe_single (start stop inc : ℝ) (h1 : start ≤ stop) (h2 : stop < start + inc) :
    whileLe start stop inc = [start] := by
  have h := whileLe_eq_map start stop inc 1
    (fun k hk => by
      have : k = 0 := by omega
      subst this
      simpa using h1)
    (by push_cast; simp only [one_mul]; exact not_le.mpr (by linarith))
  rw [h, show List.range 1 = [0] from by simp [List.range_succ], List.map_cons, List.map_nil]
  norm_num

theorem whileLe_nil (start stop inc : ℝ) (h : ¬ start ≤ stop) :
    whileLe start stop inc = [] := by
  have hm := whileLe_eq_map start stop inc 0 (fun k hk => absurd hk (by omega))
    (by simpa using h)
  rw [hm, List.range_zero, List.map_nil]

theorem whileLt_single (start stop inc : ℝ) (h1 : start < stop) (h2 : stop ≤ start + inc) :
    whileLt start stop inc = [start] := by
  have h := whileLt_eq_map start stop inc 1
    (fun k hk => by
      have : k = 0 := by omega
      subst this
      simpa using h1)
    (by push_cast; simp only [one_mul]; exact not_lt.mpr (by linarith))
  rw [h, show List.range 1 = [0] from by simp [List.range_succ], List.map_cons, List.map_nil]
  norm_num

theorem whileLt_nil (start stop inc : ℝ) (h : ¬ start < stop) :
    whileLt start stop inc = [] := by
  have hm := whileLt_eq_map start stop inc 0 (fun k hk => absurd hk (by omega))
    (by simpa using h)
  rw [hm, List.range_zero, List.map_nil]

theorem closedInc_single (mn mx : ℝ) (h : mn ≤ mx) :
    whileLe mn mx (closedInc mn mx 1) = [mn] := by
  rcases eq_or_lt_of_le h with heq | hlt
  · rw [closedInc, if_pos heq.symm]
    exact whileLe_single _ _ _ h (by rw [← heq]; linarith)
  · rw [closedInc, if_neg (by linarith), if_pos rfl]
    exact whileLe_single _ _ _ h (by linarith)

theorem openInc_single (mn mx : ℝ) (h : mn < mx) :
    whileLt mn mx (openInc mn mx 1) = [mn] := by
  rw [openInc]
  refine whileLt_single _ _ _ h ?_
  push_cast
  simp only [div_one]
  linarith

theorem vsGrid_singleton (p : VsParams) (h1 : p.num_radii = 1) (h2 : p.num_elev = 1)
    (h3 : p.num_az = 1) (h4 : p.num_roll = 1)
    (hr : p.min_radius ≤ p.max_radius) (he : p.min_elev ≤ p.max_elev)
    (ha : p.min_az < p.max_az) (hro : p.min_roll < p.max_roll) :
    vsGrid p = [⟨p.min_radius, p.min_elev, p.min_az, p.min_roll⟩] := by
  have hR : radiusVals p = [p.min_radius] := by
    rw [radiusVals, h1]
    exact closedInc_single _ _ hr
  have hE : elevVals p = [p.min_elev] := by
    rw [elevVals, h2]
    exact closedInc_single _ _ he
  have hA : azVals p = [p.min_az] := by
    rw [azVals, h3]
    exact openInc_single _ _ ha
  have hRo : rollVals p = [p.min_roll] := by
    rw [rollVals, h4]
    exact openInc_single _ _ hro
  rw [vsGrid, hR, hE, hA, hRo]
  simp [listBind_cons, listBind_nil]

theorem pwGrid_singleton (p : PwParams) (h1 : p.num_radii = 1) (h2 : p.num_elev = 1)
    (h3 : p.num_az = 1) (h4 : p.num_roll = 1) (h5 : p.num_x = 1) (h6 : p.num_y = 1)
    (hr : p.min_radius ≤ p.max_radius) (he : p.min_elev ≤ p.max_elev)
    (ha : p.min_az < p.max_az) (hro : p.min_roll < p.max_roll)
    (hx : p.min_x ≤ p.max_x) (hy : p.min_y ≤ p.max_y) :
    pwGrid p = [⟨p.min_radius, p.min_elev, p.min_az, p.min_roll, p.min_x, p.min_y⟩] := by
  have hR : pwRadiusVals p = [p.min_radius] := by
    rw [pwRadiusVals, h1]
    exact closedInc_single _ _ hr
  have hE : pwElevVals p = [p.min_elev] := by
    rw [pwElevVals, h2]
    exact closedInc_single _ _ he
  have hA : pwAzVals p = [p.min_az] := by
    rw [pwAzVals, h3]
    exact openInc_single _ _ ha
  have hRo : pwRollVals p = [p.min_roll] := by
    rw [pwRollVals, h4]
    exact openInc_single _ _ hro
  have hX : pwXVals p = [p.min_x] := by
    rw [pwXVals, h5]
    exact closedInc_single _ _ hx
  have hY : pwYVals p = [p.min_y] := by
    rw [pwYVals, h6]
    exact closedInc_single _ _ hy
  rw [pwGrid, hR, hE, hA, hRo, hX, hY]
  simp [listBind_cons, listBind_nil]

/-- C2 counterexample: a `ViewsphereDiscretizer` constructed with every count
equal to `1` but `min_az = max_az = 0` (radius `1..1`, elevation `0..0`, roll
`0..1`) generates zero poses, not one: the strict azimuth test `az < max_az`
fails immediately.  This falsifies the claim for arbitrary min/max bounds. -/
theorem single_count_zero_poses_at_equal_azimuth :
    (ViewsphereDiscretizer.object_to_camera_poses vsDegenerateAz).length ≠ 1 := by
  have hA : azVals vsDegenerateAz = [] := by
    rw [azVals]
    exact whileLt_nil _ _ _ (by norm_num [vsDegenerateAz])
  show ((vsGrid vsDegenerateAz).map vsPoseAt).length ≠ 1
  rw [vsGrid, hA]
  simp only [listBind_nil, listBind_empty, List.map_nil, List.length_nil]
  omega

/-- C2 (amended): with `num_radii = num_elev = num_az = num_roll = 1`,
`object_to_camera_poses()` returns exactly one pose provided
`min_radius <= max_radius`, `min_elev <= max_elev`, and strictly
`min_az < max_az`, `min_roll < max_roll`; in particular when `min == max` for
radius or elevation the loop still executes exactly once (step defined as 1).
When `min == max` for azimuth or roll (or `min > max` anywhere) no pose is
generated. -/
theorem single_count_single_pose (p : VsParams) (h1 : p.num_radii = 1)
    (h2 : p.num_elev = 1) (h3 : p.num_az = 1) (h4 : p.num_roll = 1)
    (hr : p.min_radius ≤ p.max_radius) (he : p.min_elev ≤ p.max_elev)
    (ha : p.min_az < p.max_az) (hro : p.min_roll < p.max_roll) :
    (ViewsphereDiscretizer.object_to_camera_poses p).length = 1 := by
  show ((vsGrid p).map vsPoseAt).length = 1
  rw [vsGrid_singleton p h1 h2 h3 h4 hr he ha hro]
  rfl

/-- C2 witness: a concrete one-count-per-dimension discretizer (radius `1..1`,
elevation `0..0`, azimuth `0..1`, roll `0..1`) yields exactly one pose. -/
theorem single_count_single_pose_witness :
    (ViewsphereDiscretizer.object_to_camera_poses vsSingleton).length = 1 :=
  single_count_single_pose vsSingleton rfl rfl rfl rfl
    (by norm_num [vsSingleton]) (by norm_num [vsSingleton])
    (by norm_num [vsSingleton]) (by norm_num [vsSingleton])

/-- C3 counterexample: both constructors accept `num_roll = 0` (and the planar
one also `num_x = 0`, `num_y = 0`) without raising, although those counts are
`< 1`: only `num_radii`, `num_az`, `num_elev` are validated. -/
theorem init_accepts_zero_roll_xy_counts :
    (ViewsphereDiscretizer.init 1 2 1 0 1 1 0 1 1 0 1 0).isOk = true ∧
    (PlanarWorksurfaceDiscretizer.init 1 2 1 0 1 1 0 1 1 0 1 0 0 1 0 0 1 0).isOk = true := by
  exact ⟨rfl, rfl⟩

/-- C3 (amended): construction of either discretizer succeeds if and only if
`num_radii >= 1` and `num_az >= 1` and `num_elev >= 1`; `num_roll` (and for
the planar discretizer `num_x`, `num_y`) are not validated at construction. -/
theorem init_validates_radii_az_elev (rmin rmax : ℝ) (nr : ℤ) (emin emax : ℝ) (nel : ℤ)
    (amin amax : ℝ) (na : ℤ) (omin omax : ℝ) (nro : ℤ) (xmin xmax : ℝ) (nx : ℤ)
    (ymin ymax : ℝ) (ny : ℤ) :
    ((ViewsphereDiscretizer.init rmin rmax nr emin emax nel amin amax na
        omin omax nro).isOk = true ↔ (1 ≤ nr ∧ 1 ≤ na ∧ 1 ≤ nel)) ∧
    ((PlanarWorksurfaceDiscretizer.init rmin rmax nr emin emax nel amin amax na
        omin omax nro xmin xmax nx ymin ymax ny).isOk = true
      ↔ (1 ≤ nr ∧ 1 ≤ na ∧ 1 ≤ nel)) := by
  constructor
  · simp only [ViewsphereDiscretizer.init]
    split_ifs with h
    · simp only [Except.isOk, Except.toBool]
      constructor
      · intro hfalse
        exact absurd hfalse (by simp)
      · intro hok
        omega
    · simp only [Except.isOk, Except.toBool]
      constructor
      · intro _
        omega
      · intro _
        trivial
  · simp only [PlanarWorksurfaceDiscretizer.init]
    split_ifs with h
    · simp only [Except.isOk, Except.toBool]
      constructor
      · intro hfalse
        exact absurd hfalse (by simp)
      · intro hok
        omega
    · simp only [Except.isOk, Except.toBool]
      constructor
      · intro _
        omega
      · intro _
        trivial

theorem closed_two_mem (mn mx : ℝ) (N : ℤ) (hN : 2 ≤ N) (h : mn < mx) :
    mx ∈ whileLe mn mx (closedInc mn mx N) := by
  have hN1 : (1 : ℝ) ≤ (N : ℝ) - 1 := by
    have h2 : (2 : ℝ) ≤ (N : ℝ) := by exact_mod_cast hN
    linarith
  have hinc : closedInc mn mx N = (mx - mn) / ((N : ℝ) - 1) := by
    rw [closedInc, if_neg (by linarith), if_neg (by omega)]
  set inc := (mx - mn) / ((N : ℝ) - 1) with hincdef
  have hincpos : 0 < inc := div_pos (by linarith) (by linarith)
  set n := N.toNat with hndef
  have hnN : (n : ℤ) = N := Int.toNat_of_nonneg (by omega)
  have hnR : (n : ℝ) = (N : ℝ) := by exact_mod_cast hnN
  have hn2 : 2 ≤ n := by omega
  have hstep : ((N : ℝ) - 1) * inc = mx - mn := by
    rw [hincdef]
    field_simp
  have hch : whileLe mn mx (closedInc mn mx N)
      = (List.range n).map (fun (k : ℕ) => mn + (k : ℝ) * inc) := by
    rw [hinc]
    refine whileLe_eq_map mn mx inc n ?_ ?_
    · intro k hk
      have hkle : (k : ℝ) ≤ (N : ℝ) - 1 := by
        have hkz : (k : ℤ) ≤ N - 1 := by omega
        exact_mod_cast hkz
      have hmul : (k : ℝ) * inc ≤ ((N : ℝ) - 1) * inc :=
        mul_le_mul_of_nonneg_right hkle hincpos.le
      linarith
    · rw [not_le, hnR]
      nlinarith
  rw [hch]
  refine List.mem_map.mpr ⟨n - 1, List.mem_range.mpr (by omega), ?_⟩
  have hcast : ((n - 1 : ℕ) : ℝ) = (N : ℝ) - 1 := by
    have hz : ((n - 1 : ℕ) : ℤ) = N - 1 := by omega
    exact_mod_cast hz
  rw [hcast]
  linarith

theorem vsGrid_az_mem {p : VsParams} {g : VsPoint} (hg : g ∈ vsGrid p) :
    g.az ∈ azVals p := by
  unfold vsGrid at hg
  obtain ⟨r, hr, hg⟩ := mem_listBind.mp hg
  obtain ⟨e, he, hg⟩ := mem_listBind.mp hg
  obtain ⟨a, ha, hg⟩ := mem_listBind.mp hg
  obtain ⟨ro, hro, rfl⟩ := List.mem_map.mp hg
  exact ha

/-- C5: with `min_az = 0`, `max_az = 2 pi`, `num_az = K >= 1`, the azimuth loop
is half-open: it visits exactly the `K` distinct azimuths `2 pi k / K`
(`k = 0 .. K-1`), all strictly below `2 pi` (so no generated grid point sits
at azimuth `2 pi`), while the radius and elevation loops are closed and reach
their `max` endpoint (shown for `num >= 2`, `min < max`). -/
theorem azimuth_loop_half_open (p : VsParams) (Kn : ℕ) (hK : 1 ≤ Kn)
    (h0 : p.min_az = 0) (h2pi : p.max_az = 2 * Real.pi) (hnum : p.num_az = (Kn : ℤ)) :
    azVals p = (List.range Kn).map (fun (k : ℕ) => 2 * Real.pi * (k : ℝ) / (Kn : ℝ)) ∧
    (azVals p).Nodup ∧
    (∀ a ∈ azVals p, a < 2 * Real.pi) ∧
    (∀ g ∈ vsGrid p, g.az < 2 * Real.pi) ∧
    (2 ≤ p.num_radii → p.min_radius < p.max_radius → p.max_radius ∈ radiusVals p) ∧
    (2 ≤ p.num_elev → p.min_elev < p.max_elev → p.max_elev ∈ elevVals p) := by
  have hpi : (0 : ℝ) < Real.pi := Real.pi_pos
  have hKpos : 0 < Kn := hK
  have hKR : (0 : ℝ) < (Kn : ℝ) := by exact_mod_cast hKpos
  have hKne : (Kn : ℝ) ≠ 0 := ne_of_gt hKR
  have hbound : ∀ k : ℕ, k < Kn →
      (0 : ℝ) + (k : ℝ) * (2 * Real.pi / (Kn : ℝ)) < 2 * Real.pi := by
    intro k hk
    have hkR : (k : ℝ) < (Kn : ℝ) := by exact_mod_cast hk
    rw [zero_add]
    calc (k : ℝ) * (2 * Real.pi / (Kn : ℝ))
        < (Kn : ℝ) * (2 * Real.pi / (Kn : ℝ)) := by
          apply mul_lt_mul_of_pos_right hkR
          positivity
      _ = 2 * Real.pi := by field_simp
  have heq : (Kn : ℝ) * (2 * Real.pi / (Kn : ℝ)) = 2 * Real.pi := by field_simp
  have hexit : ¬ ((0 : ℝ) + (Kn : ℝ) * (2 * Real.pi / (Kn : ℝ)) < 2 * Real.pi) := by
    rw [zero_add, heq]
    exact lt_irrefl _
  have hincval : openInc p.min_az p.max_az p.num_az = 2 * Real.pi / (Kn : ℝ) := by
    rw [openInc, h0, h2pi, hnum, sub_zero]
    push_cast
    ring
  have hlist : azVals p
      = (List.range Kn).map (fun (k : ℕ) => (0 : ℝ) + (k : ℝ) * (2 * Real.pi / (Kn : ℝ))) := by
    rw [azVals, hincval, h0, h2pi]
    exact whileLt_eq_map _ _ _ Kn hbound hexit
  have hlist2 : azVals p
      = (List.range Kn).map (fun (k : ℕ) => 2 * Real.pi * (k : ℝ) / (Kn : ℝ)) := by
    rw [hlist]
    refine List.map_congr_left fun k _ => ?_
    ring
  refine ⟨hlist2, ?_, ?_, ?_, ?_, ?_⟩
  · rw [hlist2]
    refine List.Nodup.map ?_ (List.nodup_range Kn)
    intro a b hab
    simp only at hab
    field_simp at hab
    exact_mod_cast hab
  · intro a ha
    rw [hlist] at ha
    obtain ⟨k, hk, rfl⟩ := List.mem_map.mp ha
    exact hbound k (List.mem_range.mp hk)
  · intro g hg
    have hmem := vsGrid_az_mem hg
    rw [hlist] at hmem
    obtain ⟨k, hk, hkeq⟩ := List.mem_map.mp hmem
    rw [← hkeq]
    exact hbound k (List.mem_range.mp hk)
  · intro hnr hlt
    rw [radiusVals]
    exact closed_two_mem _ _ _ hnr hlt
  · intro hnel hlt
    rw [elevVals]
    exact closed_two_mem _ _ _ hnel hlt

/-- C5 witness: the concrete discretizer with `min_az = 0, max_az = 2 pi,
num_az = 4`, radius `1..2` over 3 values and elevation `0..1` over 3 values. -/
theorem azimuth_loop_half_open_witness :
    azVals vsAzWitness
      = (List.range 4).map (fun (k : ℕ) => 2 * Real.pi * (k : ℝ) / ((4 : ℕ) : ℝ)) ∧
    (azVals vsAzWitness).Nodup ∧
    (∀ a ∈ azVals vsAzWitness, a < 2 * Real.pi) ∧
    (∀ g ∈ vsGrid vsAzWitness, g.az < 2 * Real.pi) ∧
    (2 ≤ vsAzWitness.num_radii → vsAzWitness.min_radius < vsAzWitness.max_radius →
      vsAzWitness.max_radius ∈ radiusVals vsAzWitness) ∧
    (2 ≤ vsAzWitness.num_elev → vsAzWitness.min_elev < vsAzWitness.max_elev →
      vsAzWitness.max_elev ∈ elevVals vsAzWitness) :=
  azimuth_loop_half_open vsAzWitness 4 (by norm_num) rfl rfl rfl

theorem cross_neg_right (u v : V3) : V3.cross u (V3.neg v) = V3.neg (V3.cross u v) := by
  simp only [V3.cross, V3.neg, V3.mk.injEq]
  refine ⟨by ring, by ring, by ring⟩

theorem norm_neg_v3 (v : V3) : (V3.neg v).norm = v.norm := by
  simp only [V3.norm, V3.dot, V3.neg]
  congr 1
  ring

theorem canonicalAxes_snd_z_nonpos (z : V3) : (canonicalAxes z).2.z ≤ 0 := by
  have key : ∀ xp : V3,
      ((if 0 < ((V3.cross z xp).divs (V3.cross z xp).norm).z then
          (xp.neg, (V3.cross z xp.neg).divs (V3.cross z xp.neg).norm)
        else
          (xp, (V3.cross z xp).divs (V3.cross z xp).norm)) : V3 × V3).2.z ≤ 0 := by
    intro xp
    split
    case isTrue h =>
      rw [cross_neg_right, norm_neg_v3]
      simp only [V3.divs, V3.neg]
      simp only [V3.divs] at h
      rw [neg_div]
      linarith
    case isFalse h =>
      exact not_lt.mp h
  simp only [canonicalAxes]
  split
  · exact key _
  · exact key _

/-- C4: for every grid point generated by either discretizer, the canonical
camera y-axis after the orientation-flip correction (before the roll is
applied) has z-component at most `0`. -/
theorem flip_invariant_all_grid_points :
    (∀ (p : VsParams), ∀ g ∈ vsGrid p, (vsYPar g).z ≤ 0) ∧
    (∀ (q : PwParams), ∀ g ∈ pwGrid q, (pwYPar g).z ≤ 0) :=
  ⟨fun _ g _ => canonicalAxes_snd_z_nonpos (vsCameraZ g),
   fun _ g _ => canonicalAxes_snd_z_nonpos (pwCameraZ g)⟩

/-- C4 witness: the single grid point of the one-count-per-dimension
discretizers satisfies the flip invariant. -/
theorem flip_invariant_witness :
    (vsYPar ⟨1, 0, 0, 0⟩).z ≤ 0 ∧ (pwYPar ⟨1, 0, 0, 0, 0, 0⟩).z ≤ 0 := by
  constructor
  · refine flip_invariant_all_grid_points.1 vsSingleton ⟨1, 0, 0, 0⟩ ?_
    rw [vsGrid_singleton vsSingleton rfl rfl rfl rfl (by norm_num [vsSingleton])
      (by norm_num [vsSingleton]) (by norm_num [vsSingleton]) (by norm_num [vsSingleton])]
    simp [vsSingleton]
  · refine flip_invariant_all_grid_points.2 pwSingleton ⟨1, 0, 0, 0, 0, 0⟩ ?_
    rw [pwGrid_singleton pwSingleton rfl rfl rfl rfl rfl rfl (by norm_num [pwSingleton])
      (by norm_num [pwSingleton]) (by norm_num [pwSingleton]) (by norm_num [pwSingleton])
      (by norm_num [pwSingleton]) (by norm_num [pwSingleton])]
    simp [pwSingleton]

/-- C1: at every planar-worksurface grid point, the recentered intrinsics have
`cx = 2 cx0 - u` and `cy = 2 cy0 - v` where `(u, v)` is the (rounded)
projection of the object origin through pose A under the original intrinsics;
consequently, when the origin has nonzero camera-frame depth, reprojecting it
through pose A with the shifted intrinsics lands within half a pixel of
`(cx0, cy0)` (rounding tolerance). -/
theorem recentered_intrinsics_center (p : PwParams) (intr : CameraIntrinsics)
    (g : PwPoint) (_hg : g ∈ pwGrid p) (hz : (originInCamera g).z ≠ 0) :
    (shiftedIntrAt intr g).cx = 2 * intr.cx - ((intr.project (originInCamera g)).1 : ℝ) ∧
    (shiftedIntrAt intr g).cy = 2 * intr.cy - ((intr.project (originInCamera g)).2 : ℝ) ∧
    |((shiftedIntrAt intr g).projectRaw (originInCamera g)).1 - intr.cx| ≤ 1 / 2 ∧
    |((shiftedIntrAt intr g).projectRaw (originInCamera g)).2 - intr.cy| ≤ 1 / 2 := by
  refine ⟨rfl, rfl, ?_, ?_⟩
  · have key : ((shiftedIntrAt intr g).projectRaw (originInCamera g)).1 - intr.cx
        = (intr.projectRaw (originInCamera g)).1
          - (round (intr.projectRaw (originInCamera g)).1 : ℝ) := by
      simp only [shiftedIntrAt, CameraIntrinsics.project, CameraIntrinsics.projectRaw]
      field_simp
      ring
    rw [key]
    exact abs_sub_round _
  · have key : ((shiftedIntrAt intr g).projectRaw (originInCamera g)).2 - intr.cy
        = (intr.projectRaw (originInCamera g)).2
          - (round (intr.projectRaw (originInCamera g)).2 : ℝ) := by
      simp only [shiftedIntrAt, CameraIntrinsics.project, CameraIntrinsics.projectRaw]
      field_simp
      ring
    rw [key]
    exact abs_sub_round _

theorem sph2cart_sample : sph2cart 1 0 0 = ⟨0, 0, 1⟩ := by
  simp [sph2cart]

theorem pwCameraZ_sample : pwCameraZ ⟨1, 0, 0, 0, 0, 0⟩ = ⟨0, 0, -1⟩ := by
  norm_num [pwCameraZ, sph2cart_sample, V3.neg, V3.norm, V3.dot, V3.divs, Real.sqrt_one]

theorem canonicalAxes_sample :
    canonicalAxes ⟨0, 0, -1⟩ = (⟨1, 0, 0⟩, ⟨0, -1, 0⟩) := by
  norm_num [canonicalAxes, V3.norm, V3.dot, V3.divs, V3.cross, V3.neg,
    Real.sqrt_zero, Real.sqrt_one]

theorem pwPoseObjCamera_sample :
    pwPoseObjCamera ⟨1, 0, 0, 0, 0, 0⟩
      = ⟨⟨⟨1, 0, 0⟩, ⟨0, -1, 0⟩, ⟨0, 0, -1⟩⟩, ⟨0, 0, 1⟩, "camera", "obj"⟩ := by
  norm_num [pwPoseObjCamera, sph2cart_sample, pwCameraZ_sample, canonicalAxes_sample,
    rotZ, M3.mul, M3.apply, V3.add, V3.smul, Real.cos_zero, Real.sin_zero]

theorem originInCamera_sample : originInCamera ⟨1, 0, 0, 0, 0, 0⟩ = ⟨0, 0, 1⟩ := by
  norm_num [originInCamera, pwPoseA, pwPoseObjCamera_sample, RigidTransform.inverse,
    RigidTransform.apply, M3.transpose, M3.apply, V3.add, V3.smul, V3.neg]

/-- C1 witness: the recentering property instantiated at the single grid point
of the one-count-per-dimension planar discretizer with the sample intrinsics. -/
theorem recentered_intrinsics_center_witness :
    (shiftedIntrAt intrSample ⟨1, 0, 0, 0, 0, 0⟩).cx
        = 2 * intrSample.cx
          - ((intrSample.project (originInCamera ⟨1, 0, 0, 0, 0, 0⟩)).1 : ℝ) ∧
    (shiftedIntrAt intrSample ⟨1, 0, 0, 0, 0, 0⟩).cy
        = 2 * intrSample.cy
          - ((intrSample.project (originInCamera ⟨1, 0, 0, 0, 0, 0⟩)).2 : ℝ) ∧
    |((shiftedIntrAt intrSample ⟨1, 0, 0, 0, 0, 0⟩).projectRaw
        (originInCamera ⟨1, 0, 0, 0, 0, 0⟩)).1 - intrSample.cx| ≤ 1 / 2 ∧
    |((shiftedIntrAt intrSample ⟨1, 0, 0, 0, 0, 0⟩).projectRaw
        (originInCamera ⟨1, 0, 0, 0, 0, 0⟩)).2 - intrSample.cy| ≤ 1 / 2 := by
  refine recentered_intrinsics_center pwSingleton intrSample ⟨1, 0, 0, 0, 0, 0⟩ ?_ ?_
  · rw [pwGrid_singleton pwSingleton rfl rfl rfl rfl rfl rfl (by norm_num [pwSingleton])
      (by norm_num [pwSingleton]) (by norm_num [pwSingleton]) (by norm_num [pwSingleton])
      (by norm_num [pwSingleton]) (by norm_num [pwSingleton])]
    simp [pwSingleton]
  · rw [originInCamera_sample]
    norm_num

theorem compositeScene_preserves {primary : Img} {px : ℕ × ℕ}
    (h : primary px ≠ (0, 0, 0)) (scene_ims : List Img) :
    compositeScene primary scene_ims px = primary px := by
  induction scene_ims generalizing primary with
  | nil => rfl
  | cons s rest ih =>
    have hstep : compositeStep primary s px = primary px := if_neg h
    have hne : compositeStep primary s px ≠ (0, 0, 0) := by
      rw [hstep]
      exact h
    calc compositeScene primary (s :: rest) px
        = compositeScene (compositeStep primary s) rest px := rfl
      _ = compositeStep primary s px := ih hne
      _ = primary px := hstep

/-- C6: in the `COLOR_SCENE` compositing step, any pixel at which the primary
color image is non-zero keeps its value through the whole compositing fold:
scene-object pixels are only written where the primary image is zero-valued. -/
theorem color_scene_keeps_nonzero_pixels (images : List Img)
    (scene_ims : List (List Img)) (i : ℕ) (px : ℕ × ℕ) (hi : i < images.length)
    (hnz : images.getD i (fun _ => (0, 0, 0)) px ≠ (0, 0, 0)) :
    (colorSceneComposite images scene_ims).getD i (fun _ => (0, 0, 0)) px
      = images.getD i (fun _ => (0, 0, 0)) px := by
  have hlen : i < ((List.range images.length).map fun j =>
      compositeScene (images.getD j (fun _ => (0, 0, 0)))
        (scene_ims.map fun l => l.getD j (fun _ => (0, 0, 0)))).length := by
    simpa using hi
  have hsel : (colorSceneComposite images scene_ims).getD i (fun _ => (0, 0, 0))
      = compositeScene (images.getD i (fun _ => (0, 0, 0)))
          (scene_ims.map fun l => l.getD i (fun _ => (0, 0, 0))) := by
    show ((List.range images.length).map fun j =>
        compositeScene (images.getD j (fun _ => (0, 0, 0)))
          (scene_ims.map fun l => l.getD j (fun _ => (0, 0, 0)))).getD i (fun _ => (0, 0, 0))
      = _
    rw [List.getD_eq_getElem _ _ hlen, List.getElem_map, List.getElem_range]
  rw [hsel]
  exact compositeScene_preserves hnz _

/-- C6 witness: a pixel of value `(1,2,3)` in the primary image is unchanged
by compositing with a scene image of constant value `(9,9,9)`. -/
theorem color_scene_keeps_nonzero_pixels_witness :
    (colorSceneComposite [fun _ => (1, 2, 3)] [[fun _ => (9, 9, 9)]]).getD 0
        (fun _ => (0, 0, 0)) (0, 0)
      = ([fun _ => ((1, 2, 3) : Pix)] : List Img).getD 0 (fun _ => (0, 0, 0)) (0, 0) :=
  color_scene_keeps_nonzero_pixels [fun _ => (1, 2, 3)] [[fun _ => (9, 9, 9)]] 0 (0, 0)
    (by norm_num) (by simp)

/-- C7: the code contradicts the removal contract.  After
`remove_from_scene(name)` the retained key maps to the absent marker, but the
`_SCENE`-mode iteration accesses `scene_obj.T_mesh_world` on every entry value
with no absent check, so the very first removed entry raises
(`AttributeError` on `None`) instead of being skipped: evaluating the scene
iteration on the scene `add_to_scene("obj", ...) ; remove_from_scene("obj")`
returns the error, not a completed composition. -/
theorem removed_scene_entry_raises :
    renderSceneEntries
      ((VirtualCamera.remove_from_scene
          (VirtualCamera.add_to_scene vcSample ("obj") sceneObjSample) ("obj")).scene)
      [rtSample]
      = Except.error ("AttributeError: NoneType object has no attribute T_mesh_world") := by
  rfl

theorem pw_foldl_render {α : Type} (render : VirtualCamera → RigidTransform → List α)
    (l : List (RigidTransform × CameraIntrinsics)) :
    ∀ (acc : List α) (ci : CameraIntrinsics) (sc : List (String × Option SceneObject)),
      (l.foldl (fun (st : List α × VirtualCamera) pr =>
          (st.1 ++ render { st.2 with camera_intr := pr.2 } pr.1,
           { st.2 with camera_intr := pr.2 })) (acc, ⟨ci, sc⟩)).1
        = acc ++ listBind l (fun pr => render ⟨pr.2, sc⟩ pr.1) := by
  induction l with
  | nil =>
    intro acc ci sc
    simp [listBind_nil]
  | cons pr rest ih =>
    intro acc ci sc
    show (rest.foldl (fun (st : List α × VirtualCamera) pr =>
          (st.1 ++ render { st.2 with camera_intr := pr.2 } pr.1,
           { st.2 with camera_intr := pr.2 }))
        ((acc ++ render ⟨pr.2, sc⟩ pr.1, ⟨pr.2, sc⟩) : List α × VirtualCamera)).1
      = acc ++ listBind (pr :: rest) (fun pr => render ⟨pr.2, sc⟩ pr.1)
    rw [ih (acc ++ render ⟨pr.2, sc⟩ pr.1) pr.2 sc, listBind_cons, List.append_assoc]

/-- C8: `wrapped_images_planar_worksurface` restores the intrinsics of the camera
on normal completion: the final camera state carries the intrinsics value held
before the call, even though each iteration of the loop swapped in the
per-pose recentered intrinsics (as witnessed by the second conjunct: each
pose is rendered with a camera whose intrinsics are its recentered pair). -/
theorem planar_worksurface_restores_intrinsics {α : Type} (vc : VirtualCamera)
    (ws_disc : PwParams) (render : VirtualCamera → RigidTransform → List α) :
    ((vc.wrapped_images_planar_worksurface ws_disc render).2).camera_intr
        = vc.camera_intr ∧
    (vc.wrapped_images_planar_worksurface ws_disc render).1
      = listBind
          (((PlanarWorksurfaceDiscretizer.object_to_camera_poses ws_disc vc.camera_intr).1).zip
            ((PlanarWorksurfaceDiscretizer.object_to_camera_poses ws_disc vc.camera_intr).2.2))
          (fun pr => render ⟨pr.2, vc.scene⟩ pr.1) := by
  obtain ⟨ci, sc⟩ := vc
  refine ⟨rfl, ?_⟩
  show ((((PlanarWorksurfaceDiscretizer.object_to_camera_poses ws_disc ci).1).zip
      ((PlanarWorksurfaceDiscretizer.object_to_camera_poses ws_disc ci).2.2)).foldl
        (fun (st : List α × VirtualCamera) pr =>
          (st.1 ++ render { st.2 with camera_intr := pr.2 } pr.1,
           { st.2 with camera_intr := pr.2 })) ([], ⟨ci, sc⟩)).1 = _
  rw [pw_foldl_render render _ [] ci sc, List.nil_append]

/-- C9: `wrapped_images` with a non-`None` stable pose mutates the callers
input pose objects: the stable-pose branch takes only a shallow copy of the
input list and sets `from_frame = stp` on each shared pose object, so after
the call every input pose carries `from_frame = stp`; with `stable_pose`
`None` the input poses are returned unchanged. -/
theorem stable_pose_mutates_input_from_frames (poses : List RigidTransform) :
    (∀ sp : StablePose,
      ((wrappedImagesPosePrep (some sp) poses).2.2.all
        fun T => T.from_frame == ("stp")) = true) ∧
    (wrappedImagesPosePrep none poses).2.2 = poses := by
  constructor
  · intro sp
    simp only [wrappedImagesPosePrep, List.all_eq_true]
    intro T hT
    obtain ⟨T0, hT0, rfl⟩ := List.mem_map.mp hT
    simp
  · rfl

/-- C10: `VirtualCamera.images` mutates its input mesh exactly when the mesh
has no vertex normals: with `normals` absent the returned mesh state carries
the computed normals stored on it; with normals already present the mesh is
returned unchanged. -/
theorem images_mutates_mesh_iff_normals_absent {α β : Type} (vc : VirtualCamera)
    (cvn : Mesh → List V3)
    (render_mesh : CameraIntrinsics → RigidTransform → Mesh → α × β)
    (mesh : Mesh) (poses : List RigidTransform) :
    (mesh.normals = none →
      (vc.images cvn render_mesh mesh poses).2
        = { mesh with normals := some (cvn mesh) }) ∧
    (∀ ns, mesh.normals = some ns →
      (vc.images cvn render_mesh mesh poses).2 = mesh) := by
  constructor
  · intro h
    simp [VirtualCamera.images, Mesh.compute_vertex_normals, h]
  · intro ns h
    simp [VirtualCamera.images, h]

/-- C10 witness: rendering a mesh without stored normals returns a mesh state
with the computed normals stored on it. -/
theorem images_mutates_mesh_witness :
    (vcSample.images (fun _ => ([] : List V3))
        (fun _ _ _ => (((0 : ℕ), (0 : ℕ)) : ℕ × ℕ)) meshNoNormals []).2
      = { meshNoNormals with normals := some [] } :=
  (images_mutates_mesh_iff_normals_absent vcSample (fun _ => ([] : List V3))
    (fun _ _ _ => ((0 : ℕ), (0 : ℕ))) meshNoNormals []).1 rfl
